import Mathlib

/-!
Verification of the screen-ghost capture pipeline
(`src/src-tauri/src/monitor/screen_shot.rs`, `src/src-tauri/src/monitor/mod.rs`,
`src/src-tauri/src/system/monitoring/mod.rs`), shallowly embedded in Lean.

Machine integers are modelled as `Nat`/`Int`; the `u32` consecutive-success
counters use the source's `saturating_add`, modelled by `min (c + 1) U32_MAX`.
Pixel bytes are plain `Nat`s (only equality with zero and with each other
matters to the verified code). OS calls (DXGI, GDI, Tauri monitor
enumeration) are abstracted as oracle parameters; everything the Rust code
computes from their answers is embedded verbatim.
-/

namespace ScreenGhost

/-- `Image` from `screen_shot.rs`: `width`/`height` are `i32`, `data` the BGRA
byte vector. -/
structure Image where
  width : Int
  height : Int
  data : List Nat
deriving Repr, DecidableEq

/-- `MonitorInfo` from `monitor/monitor.rs`: `id: usize`, geometry in `i32`,
`scale_factor: f64` modelled as a rational. -/
structure MonitorInfo where
  id : Nat
  x : Int
  y : Int
  width : Int
  height : Int
  scale_factor : ℚ
deriving Repr, DecidableEq

/-- `CaptureMethod` from `screen_shot.rs`. -/
inductive CaptureMethod
  | Optimized
  | Standard
  | Alternative
deriving Repr, DecidableEq

/-- `CaptureStats` from `screen_shot.rs`: per-display consecutive-success
counters (`u32`) and the currently preferred method. -/
structure CaptureStats where
  consec_optimized : Nat
  consec_standard : Nat
  consec_alternative : Nat
  preferred : CaptureMethod
deriving Repr, DecidableEq

/-- `Default for CaptureStats`: zero counters, preferred `Optimized`. -/
def CaptureStats.default : CaptureStats :=
  { consec_optimized := 0, consec_standard := 0, consec_alternative := 0,
    preferred := CaptureMethod.Optimized }

/-- `SUCCESS_THRESHOLD` constant from `screen_shot.rs`. -/
def SUCCESS_THRESHOLD : Nat := 3

/-- `u32::MAX`, the saturation point of `saturating_add`. -/
def U32_MAX : Nat := 2 ^ 32 - 1

/-- `u32::saturating_add(1)` on a counter value. -/
def satSucc (c : Nat) : Nat := min (c + 1) U32_MAX

/-- The consecutive-success counter of a given method inside `CaptureStats`. -/
def counterOf (s : CaptureStats) : CaptureMethod → Nat
  | CaptureMethod.Optimized => s.consec_optimized
  | CaptureMethod.Standard => s.consec_standard
  | CaptureMethod.Alternative => s.consec_alternative

/-- `record_result` from `screen_shot.rs` (lines 201-238), acting on one
display's map entry: update the attempted method's consecutive counter
(saturating increment on success, reset to 0 on failure), then recompute
`preferred` as the highest-performance method whose counter has reached
`SUCCESS_THRESHOLD`, keeping the old `preferred` when none has. -/
def record_result (s : CaptureStats) (method : CaptureMethod) (success : Bool) :
    CaptureStats :=
  let s1 :=
    match method with
    | CaptureMethod.Optimized =>
        { s with consec_optimized := if success then satSucc s.consec_optimized else 0 }
    | CaptureMethod.Standard =>
        { s with consec_standard := if success then satSucc s.consec_standard else 0 }
    | CaptureMethod.Alternative =>
        { s with consec_alternative := if success then satSucc s.consec_alternative else 0 }
  { s1 with
    preferred :=
      if s1.consec_optimized ≥ SUCCESS_THRESHOLD then CaptureMethod.Optimized
      else if s1.consec_standard ≥ SUCCESS_THRESHOLD then CaptureMethod.Standard
      else if s1.consec_alternative ≥ SUCCESS_THRESHOLD then CaptureMethod.Alternative
      else s1.preferred }

/-- `choose_start_method` from `screen_shot.rs` (lines 188-199): the map entry
for the display may be absent (`none`); a method whose counter reached the
threshold is chosen by performance order, otherwise the stored `preferred`
(default `Optimized` with no entry). -/
def choose_start_method (entry : Option CaptureStats) : CaptureMethod :=
  match entry with
  | some m =>
      if m.consec_optimized ≥ SUCCESS_THRESHOLD then CaptureMethod.Optimized
      else if m.consec_standard ≥ SUCCESS_THRESHOLD then CaptureMethod.Standard
      else if m.consec_alternative ≥ SUCCESS_THRESHOLD then CaptureMethod.Alternative
      else m.preferred
  | none => CaptureMethod.Optimized

/-- `record_result`'s `or_insert_with(Default)` on the per-display map entry. -/
def record_result_entry (entry : Option CaptureStats) (method : CaptureMethod)
    (success : Bool) : CaptureStats :=
  record_result (entry.getD CaptureStats.default) method success

/-- Spec-side helper: the highest-performance method (order
`Optimized > Standard > Alternative`) whose counter has reached
`SUCCESS_THRESHOLD`, if any. -/
def bestAtThreshold? (s : CaptureStats) : Option CaptureMethod :=
  if s.consec_optimized ≥ SUCCESS_THRESHOLD then some CaptureMethod.Optimized
  else if s.consec_standard ≥ SUCCESS_THRESHOLD then some CaptureMethod.Standard
  else if s.consec_alternative ≥ SUCCESS_THRESHOLD then some CaptureMethod.Alternative
  else none

/-- Consistency invariant relating `preferred` to the counters: whenever some
counter is at threshold, `preferred` is the highest-performance such method.
It holds for the default state and after every `record_result`. -/
def Consistent (s : CaptureStats) : Prop :=
  ∀ m, bestAtThreshold? s = some m → s.preferred = m

instance (s : CaptureStats) : Decidable (Consistent s) := by
  unfold Consistent; infer_instance

/-- Invariant lifted to an optional map entry. -/
def ConsistentO : Option CaptureStats → Prop
  | none => True
  | some s => Consistent s

instance (o : Option CaptureStats) : Decidable (ConsistentO o) := by
  cases o <;> simp [ConsistentO] <;> infer_instance

lemma consistent_default : Consistent CaptureStats.default := by
  intro m h
  simp [bestAtThreshold?, CaptureStats.default, SUCCESS_THRESHOLD] at h

lemma record_result_consistent (s : CaptureStats) (m : CaptureMethod) (b : Bool) :
    Consistent (record_result s m b) := by
  intro m2 h
  cases m <;> cases b <;>
    simp only [record_result, bestAtThreshold?] at h ⊢ <;>
    split_ifs at h ⊢ <;> simp_all

/-- A BGRA pixel value: the four sampled bytes `(b, g, r, a)`. -/
abbrev Pixel := Nat × Nat × Nat × Nat

/-- `image.width.max(1) as usize` from `has_valid_content`. -/
def clampedWidth (img : Image) : Nat := (max img.width 1).toNat

/-- `image.height.max(1) as usize` from `has_valid_content`. -/
def clampedHeight (img : Image) : Nat := (max img.height 1).toNat

/-- One sampled grid coordinate: `g * (dim - 1) / (8 - 1).max(1)` from
`has_valid_content` (`grid_x = grid_y = 8`). -/
def gridCoord (dim g : Nat) : Nat := g * (dim - 1) / max (8 - 1) 1

/-- The grid points `(gy, gx)` in the visit order of `has_valid_content`'s
nested loops (`gy` outer, `gx` inner, each over `0..8`). -/
def gridPairs : List (Nat × Nat) :=
  ((List.range 8).map (fun gy => (List.range 8).map (fun gx => (gy, gx)))).flatten

/-- The byte index `(y * width + x) * 4` sampled for grid point `(gy, gx)`. -/
def samplePos (img : Image) (p : Nat × Nat) : Nat :=
  (gridCoord (clampedHeight img) p.1 * clampedWidth img +
    gridCoord (clampedWidth img) p.2) * 4

/-- The four bytes `data[idx..idx+3]` (0 when out of range; `has_valid_content`
only reads them after checking `idx + 3 < data.len()`). -/
def readPixel (data : List Nat) (idx : Nat) : Pixel :=
  (data.getD idx 0, data.getD (idx + 1) 0, data.getD (idx + 2) 0,
    data.getD (idx + 3) 0)

/-- The all-zero BGRA pixel `[0, 0, 0, 0]`; a pixel counts as non-zero in
`has_valid_content` (`b != 0 || g != 0 || r != 0 || a != 0`) exactly when it
differs from this value. -/
def zeroPixel : Pixel := (0, 0, 0, 0)

/-- The loop state of `has_valid_content`: `non_zero` count, the first sampled
color, and the count of samples differing from it. -/
structure ScanState where
  non_zero : Nat
  first_color : Option Pixel
  different_colors : Nat
deriving Repr, DecidableEq

/-- One loop-body iteration of `has_valid_content` on an already-read pixel:
bump `non_zero` if any byte is non-zero; set `first_color` on the first
sample, otherwise bump `different_colors` when the sample differs from it. -/
def scanPixel (st : ScanState) (px : Pixel) : ScanState :=
  let nz := if px ≠ zeroPixel then st.non_zero + 1 else st.non_zero
  match st.first_color with
  | none =>
      { non_zero := nz, first_color := some px,
        different_colors := st.different_colors }
  | some fc =>
      if fc ≠ px then
        { non_zero := nz, first_color := some fc,
          different_colors := st.different_colors + 1 }
      else
        { non_zero := nz, first_color := some fc,
          different_colors := st.different_colors }

/-- One loop-body iteration on a grid point, including the
`idx + 3 >= data.len()` continue-guard. -/
def scanStep (img : Image) (st : ScanState) (p : Nat × Nat) : ScanState :=
  let idx := samplePos img p
  if idx + 3 ≥ img.data.length then st
  else scanPixel st (readPixel img.data idx)

/-- `has_valid_content` from `screen_shot.rs` (lines 274-308): reject a buffer
shorter than `width * height * 4` (clamped dims); otherwise sample the 8×8
grid and accept iff some sample is non-zero and some sample differs from the
first one. -/
def has_valid_content (img : Image) : Bool :=
  if img.data.length < clampedWidth img * clampedHeight img * 4 then false
  else
    decide (0 < (gridPairs.foldl (scanStep img) ⟨0, none, 0⟩).non_zero ∧
      0 < (gridPairs.foldl (scanStep img) ⟨0, none, 0⟩).different_colors)

/-- Bounds-checked read of the four bytes at `idx`: `none` if any of the four
indices is out of range. -/
def readPixelChecked (data : List Nat) (idx : Nat) : Option Pixel :=
  match data[idx]?, data[idx + 1]?, data[idx + 2]?, data[idx + 3]? with
  | some b, some g, some r, some a => some (b, g, r, a)
  | _, _, _, _ => none

/-- `scanStep` with every buffer read bounds-checked. -/
def scanStepChecked (img : Image) (st : ScanState) (p : Nat × Nat) :
    Option ScanState :=
  let idx := samplePos img p
  if idx + 3 ≥ img.data.length then some st
  else
    match readPixelChecked img.data idx with
    | some px => some (scanPixel st px)
    | none => none

/-- `has_valid_content` with every buffer read bounds-checked: `none` would
mean an out-of-range access. -/
def has_valid_contentChecked (img : Image) : Option Bool :=
  if img.data.length < clampedWidth img * clampedHeight img * 4 then some false
  else
    (gridPairs.foldlM (scanStepChecked img) (⟨0, none, 0⟩ : ScanState)).map
      (fun st => decide (0 < st.non_zero ∧ 0 < st.different_colors))

/-- The 64 pixel values sampled by `has_valid_content`, in visit order. -/
def sampledPixels (img : Image) : List Pixel :=
  gridPairs.map (fun p => readPixel img.data (samplePos img p))

lemma scanPixel_non_zero (st : ScanState) (px : Pixel) :
    (scanPixel st px).non_zero =
      st.non_zero + (if px = zeroPixel then 0 else 1) := by
  by_cases hz : px = zeroPixel <;> cases hfc : st.first_color <;>
    simp [scanPixel, hz, hfc] <;> split <;> rfl

lemma scanPixel_first_some (st : ScanState) (px : Pixel) (c : Pixel)
    (h : st.first_color = some c) : (scanPixel st px).first_color = some c := by
  by_cases hcp : c = px <;> simp [scanPixel, h, hcp]

lemma scanPixel_diff_some (st : ScanState) (px : Pixel) (c : Pixel)
    (h : st.first_color = some c) :
    (scanPixel st px).different_colors =
      st.different_colors + (if px = c then 0 else 1) := by
  by_cases hpc : px = c
  · simp [scanPixel, h, hpc]
  · have hcp : ¬c = px := fun hc => hpc hc.symm
    simp [scanPixel, h, hpc, hcp]

lemma foldl_scan_non_zero (ps : List Pixel) (st : ScanState) :
    0 < (ps.foldl scanPixel st).non_zero ↔
      0 < st.non_zero ∨ ∃ p ∈ ps, p ≠ zeroPixel := by
  induction ps generalizing st with
  | nil => simp
  | cons p ps ih =>
      rw [List.foldl_cons, ih, List.exists_mem_cons_iff]
      by_cases hz : p = zeroPixel
      · rw [scanPixel_non_zero, if_pos hz, Nat.add_zero]
        have hnp : ¬p ≠ zeroPixel := fun hc => hc hz
        tauto
      · rw [scanPixel_non_zero, if_neg hz]
        have hpos : 0 < st.non_zero + 1 := Nat.succ_pos _
        tauto

lemma foldl_scan_diff (ps : List Pixel) (st : ScanState) (c : Pixel)
    (h : st.first_color = some c) :
    0 < (ps.foldl scanPixel st).different_colors ↔
      0 < st.different_colors ∨ ∃ p ∈ ps, p ≠ c := by
  induction ps generalizing st with
  | nil => simp
  | cons p ps ih =>
      rw [List.foldl_cons, ih (scanPixel st p) (scanPixel_first_some st p c h),
        scanPixel_diff_some st p c h, List.exists_mem_cons_iff]
      by_cases hpc : p = c
      · rw [if_pos hpc, Nat.add_zero]
        have hnp : ¬p ≠ c := fun hc => hc hpc
        tauto
      · rw [if_neg hpc]
        have hpos : 0 < st.different_colors + 1 := Nat.succ_pos _
        tauto

lemma exists_ne_head_iff (p : Pixel) (ps : List Pixel) :
    (∃ q ∈ ps, q ≠ p) ↔ ∃ a ∈ p :: ps, ∃ b ∈ p :: ps, a ≠ b := by
  constructor
  · rintro ⟨q, hq, hne⟩
    exact ⟨q, List.mem_cons_of_mem p hq, p, List.mem_cons_self p ps, hne⟩
  · rintro ⟨a, ha, b, hb, hne⟩
    by_cases hap : a = p
    · subst hap
      rcases List.mem_cons.mp hb with hb' | hb'
      · exact absurd hb'.symm hne
      · exact ⟨b, hb', fun hc => hne hc.symm⟩
    · rcases List.mem_cons.mp ha with ha' | ha'
      · exact absurd ha' hap
      · exact ⟨a, ha', hap⟩

lemma scan_full (p : Pixel) (ps : List Pixel) :
    (0 < ((p :: ps).foldl scanPixel ⟨0, none, 0⟩).non_zero ∧
      0 < ((p :: ps).foldl scanPixel ⟨0, none, 0⟩).different_colors) ↔
      ((∃ q ∈ p :: ps, q ≠ zeroPixel) ∧
        ∃ a ∈ p :: ps, ∃ b ∈ p :: ps, a ≠ b) := by
  have hstep : (scanPixel ⟨0, none, 0⟩ p) =
      ⟨if p = zeroPixel then 0 else 1, some p, 0⟩ := by
    by_cases hz : p = zeroPixel <;> simp [scanPixel, hz]
  rw [List.foldl_cons, hstep, foldl_scan_non_zero, foldl_scan_diff _ _ p rfl,
    ← exists_ne_head_iff, List.exists_mem_cons_iff]
  by_cases hz : p = zeroPixel
  · have hnp : ¬p ≠ zeroPixel := fun hc => hc hz
    rw [if_pos hz]
    simp only [Nat.lt_irrefl]
    tauto
  · rw [if_neg hz]
    have hpos : (0 : Nat) < 1 := Nat.one_pos
    have hirr : ¬(0 : Nat) < 0 := Nat.lt_irrefl 0
    tauto

lemma gridPairs_bounds : ∀ p ∈ gridPairs, p.1 < 8 ∧ p.2 < 8 := by decide

lemma gridCoord_le (dim g : Nat) (hg : g ≤ 7) : gridCoord dim g ≤ dim - 1 := by
  unfold gridCoord
  calc g * (dim - 1) / max (8 - 1) 1 ≤ 7 * (dim - 1) / 7 :=
        Nat.div_le_div_right (Nat.mul_le_mul_right _ hg)
    _ = dim - 1 := Nat.mul_div_cancel_left _ (by norm_num)

lemma one_le_clampedWidth (img : Image) : 1 ≤ clampedWidth img :=
  Int.toNat_le_toNat (le_max_right img.width 1)

lemma one_le_clampedHeight (img : Image) : 1 ≤ clampedHeight img :=
  Int.toNat_le_toNat (le_max_right img.height 1)

lemma pred_mul_add (a b : Nat) (ha : 1 ≤ a) (hb : 1 ≤ b) :
    (a - 1) * b + (b - 1) + 1 = a * b := by
  obtain ⟨a', rfl⟩ : ∃ a', a = a' + 1 := ⟨a - 1, by omega⟩
  obtain ⟨b', rfl⟩ : ∃ b', b = b' + 1 := ⟨b - 1, by omega⟩
  simp only [Nat.add_sub_cancel]
  ring

lemma samplePos_bound (img : Image) (p : Nat × Nat) (hp : p ∈ gridPairs)
    (hlen : clampedWidth img * clampedHeight img * 4 ≤ img.data.length) :
    samplePos img p + 3 < img.data.length := by
  obtain ⟨h1, h2⟩ := gridPairs_bounds p hp
  have hw1 : 1 ≤ clampedWidth img := one_le_clampedWidth img
  have hh1 : 1 ≤ clampedHeight img := one_le_clampedHeight img
  have hy : gridCoord (clampedHeight img) p.1 ≤ clampedHeight img - 1 :=
    gridCoord_le _ p.1 (by omega)
  have hx : gridCoord (clampedWidth img) p.2 ≤ clampedWidth img - 1 :=
    gridCoord_le _ p.2 (by omega)
  have hmul : gridCoord (clampedHeight img) p.1 * clampedWidth img ≤
      (clampedHeight img - 1) * clampedWidth img :=
    Nat.mul_le_mul_right _ hy
  have hsum := pred_mul_add (clampedHeight img) (clampedWidth img) hh1 hw1
  have hkey : gridCoord (clampedHeight img) p.1 * clampedWidth img +
      gridCoord (clampedWidth img) p.2 + 1 ≤
        clampedHeight img * clampedWidth img := by omega
  have hpos : samplePos img p =
      (gridCoord (clampedHeight img) p.1 * clampedWidth img +
        gridCoord (clampedWidth img) p.2) * 4 := rfl
  have hcomm : clampedHeight img * clampedWidth img =
      clampedWidth img * clampedHeight img := Nat.mul_comm _ _
  omega

lemma foldl_congr_mem {α β : Type} (l : List α) (f g : β → α → β) (b : β)
    (h : ∀ st a, a ∈ l → f st a = g st a) : l.foldl f b = l.foldl g b := by
  induction l generalizing b with
  | nil => rfl
  | cons a l ih =>
      rw [List.foldl_cons, List.foldl_cons, h b a (List.mem_cons_self a l)]
      exact ih _ (fun st a' ha' => h st a' (List.mem_cons_of_mem a ha'))

lemma scan_eq_pixels (img : Image)
    (hlen : clampedWidth img * clampedHeight img * 4 ≤ img.data.length) :
    gridPairs.foldl (scanStep img) ⟨0, none, 0⟩ =
      (sampledPixels img).foldl scanPixel ⟨0, none, 0⟩ := by
  rw [sampledPixels, List.foldl_map]
  exact foldl_congr_mem gridPairs _ _ _ (fun st p hp => by
    have hb := samplePos_bound img p hp hlen
    simp only [scanStep]
    rw [if_neg (by omega)])

lemma clampedWidth_of_pos (img : Image) (h : 1 ≤ img.width) :
    clampedWidth img = img.width.toNat := by
  unfold clampedWidth
  rw [max_eq_left h]

lemma clampedHeight_of_pos (img : Image) (h : 1 ≤ img.height) :
    clampedHeight img = img.height.toNat := by
  unfold clampedHeight
  rw [max_eq_left h]

lemma clampedWidth_of_nonpos (img : Image) (h : img.width ≤ 0) :
    clampedWidth img = 1 := by
  unfold clampedWidth
  rw [max_eq_right (by omega)]
  rfl

lemma clampedHeight_of_nonpos (img : Image) (h : img.height ≤ 0) :
    clampedHeight img = 1 := by
  unfold clampedHeight
  rw [max_eq_right (by omega)]
  rfl

lemma const_scan_diff_zero (l : List (Nat × Nat)) (st : ScanState) (px : Pixel)
    (hd : st.different_colors = 0)
    (hf : st.first_color = none ∨ st.first_color = some px) :
    (l.foldl (fun s _ => scanPixel s px) st).different_colors = 0 := by
  induction l generalizing st with
  | nil => exact hd
  | cons a l ih =>
      rw [List.foldl_cons]
      rcases hf with hf | hf
      · exact ih _ (by simp [scanPixel, hf, hd]) (Or.inr (by simp [scanPixel, hf]))
      · exact ih _ (by simp [scanPixel, hf, hd]) (Or.inr (by simp [scanPixel, hf]))

/-- With both reported dimensions nonpositive the clamped dimensions are 1×1,
every grid point samples index 0, all 64 samples coincide, and the validator
rejects the frame. -/
lemma hvc_false_of_nonpos (img : Image) (hw : img.width ≤ 0)
    (hh : img.height ≤ 0) : has_valid_content img = false := by
  have hcw := clampedWidth_of_nonpos img hw
  have hch := clampedHeight_of_nonpos img hh
  unfold has_valid_content
  by_cases hguard : img.data.length < clampedWidth img * clampedHeight img * 4
  · rw [if_pos hguard]
  · rw [if_neg hguard]
    have hlen4 : 4 ≤ img.data.length := by
      rw [hcw, hch] at hguard
      omega
    have hstep : ∀ st p, p ∈ gridPairs →
        scanStep img st p = scanPixel st (readPixel img.data 0) := by
      intro st p _
      have hpos : samplePos img p = 0 := by
        simp [samplePos, hcw, hch, gridCoord]
      rw [scanStep, hpos, if_neg (by omega)]
    have hdz : (gridPairs.foldl (scanStep img)
        ⟨0, none, 0⟩).different_colors = 0 := by
      rw [foldl_congr_mem gridPairs (scanStep img)
        (fun s _ => scanPixel s (readPixel img.data 0)) ⟨0, none, 0⟩ hstep]
      exact const_scan_diff_zero gridPairs _ _ rfl (Or.inl rfl)
    rw [decide_eq_false_iff_not]
    rintro ⟨-, hdiff⟩
    rw [hdz] at hdiff
    omega

lemma readPixelChecked_eq (data : List Nat) (idx : Nat)
    (h : idx + 3 < data.length) :
    readPixelChecked data idx = some (readPixel data idx) := by
  have e0 : data.getD idx 0 = data[idx] := List.getD_eq_getElem data 0 (by omega)
  have e1 : data.getD (idx + 1) 0 = data[idx + 1] :=
    List.getD_eq_getElem data 0 (by omega)
  have e2 : data.getD (idx + 2) 0 = data[idx + 2] :=
    List.getD_eq_getElem data 0 (by omega)
  have e3 : data.getD (idx + 3) 0 = data[idx + 3] :=
    List.getD_eq_getElem data 0 (by omega)
  have h0 : data[idx]? = some data[idx] :=
    List.getElem?_eq_getElem (by omega)
  have h1 : data[idx + 1]? = some data[idx + 1] :=
    List.getElem?_eq_getElem (by omega)
  have h2 : data[idx + 2]? = some data[idx + 2] :=
    List.getElem?_eq_getElem (by omega)
  have h3 : data[idx + 3]? = some data[idx + 3] :=
    List.getElem?_eq_getElem (by omega)
  simp only [readPixelChecked, readPixel, h0, h1, h2, h3, e0, e1, e2, e3]

lemma scanStepChecked_eq (img : Image) (st : ScanState) (p : Nat × Nat) :
    scanStepChecked img st p = some (scanStep img st p) := by
  unfold scanStepChecked scanStep
  by_cases hge : samplePos img p + 3 ≥ img.data.length
  · rw [if_pos hge, if_pos hge]
  · rw [if_neg hge, if_neg hge, readPixelChecked_eq img.data _ (by omega)]

lemma foldlM_option_eq {α β : Type} (l : List α) (f : β → α → β)
    (g : β → α → Option β) :
    ∀ (b : β), (∀ b' a, a ∈ l → g b' a = some (f b' a)) →
      l.foldlM g b = some (l.foldl f b) := by
  induction l with
  | nil => intro b _; rfl
  | cons a l ih =>
      intro b h
      rw [List.foldlM_cons, h b a (List.mem_cons_self a l)]
      show (l.foldlM g (f b a)) = _
      rw [List.foldl_cons]
      exact ih (f b a) (fun b' a' ha' => h b' a' (List.mem_cons_of_mem a ha'))

/-- C9: `has_valid_content` classifies every buffer shorter than its reported
`width * height * 4` as invalid (returns `false`), and on every image
whatsoever it performs only bounds-checked reads: the fully bounds-checked
variant never fails and agrees with it. -/
theorem has_valid_content_safety (img : Image) :
    ((img.data.length : Int) < img.width * img.height * 4 →
      has_valid_content img = false) ∧
    has_valid_contentChecked img = some (has_valid_content img) := by
  constructor
  · intro hlt
    by_cases hw : 1 ≤ img.width
    · by_cases hh : 1 ≤ img.height
      · have hcw := clampedWidth_of_pos img hw
        have hch := clampedHeight_of_pos img hh
        have hwn : (img.width.toNat : Int) = img.width :=
          Int.toNat_of_nonneg (by omega)
        have hhn : (img.height.toNat : Int) = img.height :=
          Int.toNat_of_nonneg (by omega)
        have hlen : img.data.length <
            clampedWidth img * clampedHeight img * 4 := by
          rw [hcw, hch]
          have hcast : (img.data.length : Int) <
              ((img.width.toNat * img.height.toNat * 4 : Nat) : Int) := by
            push_cast [hwn, hhn]
            exact hlt
          exact_mod_cast hcast
        unfold has_valid_content
        rw [if_pos hlen]
      · push_neg at hh
        by_cases hwp : img.width ≤ 0
        · exact hvc_false_of_nonpos img hwp (by omega)
        · exfalso
          have hprod : img.width * img.height ≤ 0 :=
            mul_nonpos_iff.mpr (Or.inl ⟨by omega, by omega⟩)
          have hlen0 : (0 : Int) ≤ (img.data.length : Int) :=
            Int.natCast_nonneg _
          omega
    · push_neg at hw
      by_cases hhp : img.height ≤ 0
      · exact hvc_false_of_nonpos img (by omega) hhp
      · exfalso
        have hprod : img.width * img.height ≤ 0 :=
          mul_nonpos_iff.mpr (Or.inr ⟨by omega, by omega⟩)
        have hlen0 : (0 : Int) ≤ (img.data.length : Int) :=
          Int.natCast_nonneg _
        omega
  · unfold has_valid_contentChecked has_valid_content
    by_cases hguard : img.data.length < clampedWidth img * clampedHeight img * 4
    · rw [if_pos hguard, if_pos hguard]
    · rw [if_neg hguard, if_neg hguard,
        foldlM_option_eq gridPairs (scanStep img) (scanStepChecked img)
          ⟨0, none, 0⟩ (fun b a _ => scanStepChecked_eq img b a)]
      rfl

/-- C9 witness: a 2×2 image with only 3 data bytes (< 16) is rejected. -/
theorem has_valid_content_safety_witness :
    has_valid_content ⟨2, 2, [1, 2, 3]⟩ = false :=
  (has_valid_content_safety ⟨2, 2, [1, 2, 3]⟩).1 (by decide)

/-- C4: for a frame with positive reported dimensions and at least
`width * height * 4` data bytes, `has_valid_content` accepts the frame iff
some sampled 8×8-grid pixel is non-zero AND two sampled grid positions hold
different 4-byte pixel values; in particular a buffer whose samples are all
one value (zero or not) is rejected. -/
theorem has_valid_content_spec (img : Image) (hw : 1 ≤ img.width)
    (hh : 1 ≤ img.height)
    (hlen : img.width.toNat * img.height.toNat * 4 ≤ img.data.length) :
    has_valid_content img = true ↔
      ((∃ p ∈ sampledPixels img, p ≠ zeroPixel) ∧
        ∃ a ∈ sampledPixels img, ∃ b ∈ sampledPixels img, a ≠ b) := by
  have hcw := clampedWidth_of_pos img hw
  have hch := clampedHeight_of_pos img hh
  have hlen' : clampedWidth img * clampedHeight img * 4 ≤ img.data.length := by
    rw [hcw, hch]
    exact hlen
  have hlen64 : (sampledPixels img).length = 64 := by
    rw [sampledPixels, List.length_map]
    rfl
  unfold has_valid_content
  rw [if_neg (by omega), scan_eq_pixels img hlen']
  rcases hsp : sampledPixels img with _ | ⟨p, ps⟩
  · rw [hsp] at hlen64
    simp at hlen64
  · rw [decide_eq_true_eq]
    exact scan_full p ps

/-- C4 witness: a 2×2 frame with four distinct non-zero pixels is accepted. -/
theorem has_valid_content_spec_witness :
    has_valid_content
      ⟨2, 2, [1, 2, 3, 4, 5, 6, 7, 8, 9, 10, 11, 12, 13, 14, 15, 16]⟩ = true :=
  (has_valid_content_spec
    ⟨2, 2, [1, 2, 3, 4, 5, 6, 7, 8, 9, 10, 11, 12, 13, 14, 15, 16]⟩
    (by decide) (by decide) (by decide)).mpr (by decide)

/-- The adaptive attempt order of `screen_shot_directx` (lines 443-447),
determined by the start method. -/
def methodOrder : CaptureMethod → List CaptureMethod
  | CaptureMethod.Optimized =>
      [CaptureMethod.Optimized, CaptureMethod.Standard, CaptureMethod.Alternative]
  | CaptureMethod.Standard => [CaptureMethod.Standard, CaptureMethod.Alternative]
  | CaptureMethod.Alternative => [CaptureMethod.Alternative]

/-- The display's current preferred method (default `Optimized` when the
per-display map has no entry yet). -/
def preferredO (st : Option CaptureStats) : CaptureMethod :=
  (st.getD CaptureStats.default).preferred

/-- The attempt loop of `screen_shot_directx` (lines 450-487). The OS-level
backends are abstracted by `attempt` (each method is called at most once per
capture). Every result is validated with `has_valid_content` and recorded
with `record_result`; the first accepted frame is returned, otherwise the
loop falls through to the final error. -/
def runMethods (attempt : CaptureMethod → Except String Image) :
    List CaptureMethod → Option CaptureStats →
      Except String Image × Option CaptureStats
  | [], st => (Except.error "All DirectX methods failed or returned blank", st)
  | m :: rest, st =>
      match attempt m with
      | Except.ok image =>
          if has_valid_content image then
            (Except.ok image, some (record_result_entry st m true))
          else runMethods attempt rest (some (record_result_entry st m false))
      | Except.error _ =>
          runMethods attempt rest (some (record_result_entry st m false))

/-- `screen_shot_directx` from `screen_shot.rs` (lines 440-488): run the
adaptive methods in the order of `choose_start_method`, threading the
per-display selector state. -/
def screen_shot_directx (attempt : CaptureMethod → Except String Image)
    (st : Option CaptureStats) : Except String Image × Option CaptureStats :=
  runMethods attempt (methodOrder (choose_start_method st)) st

/-- `MonitorInfo::screen_shot` from `screen_shot.rs` (lines 241-263): try the
adaptive DirectX chain; if it yields a frame accepted by the validator,
return it; otherwise fall back to GDI (abstracted by `gdi`) and return the
GDI result unvalidated. -/
def screen_shot (attempt : CaptureMethod → Except String Image)
    (gdi : Except String Image) (st : Option CaptureStats) :
    Except String Image × Option CaptureStats :=
  match screen_shot_directx attempt st with
  | (Except.ok image, st1) =>
      if has_valid_content image then (Except.ok image, st1) else (gdi, st1)
  | (Except.error _, st1) => (gdi, st1)

/-- Spec-side function: the first frame along the method list that the
backend produces and the validator accepts. -/
def firstAccepted (attempt : CaptureMethod → Except String Image) :
    List CaptureMethod → Option Image
  | [] => none
  | m :: rest =>
      match attempt m with
      | Except.ok image =>
          if has_valid_content image then some image
          else firstAccepted attempt rest
      | Except.error _ => firstAccepted attempt rest

lemma choose_start_eq (st : Option CaptureStats) (h : ConsistentO st) :
    choose_start_method st = preferredO st := by
  cases st with
  | none => rfl
  | some s =>
      unfold choose_start_method preferredO
      simp only [Option.getD_some]
      by_cases h1 : s.consec_optimized ≥ SUCCESS_THRESHOLD
      · rw [if_pos h1]
        exact (h CaptureMethod.Optimized (by simp [bestAtThreshold?, h1])).symm
      · rw [if_neg h1]
        by_cases h2 : s.consec_standard ≥ SUCCESS_THRESHOLD
        · rw [if_pos h2]
          exact (h CaptureMethod.Standard
            (by simp [bestAtThreshold?, h1, h2])).symm
        · rw [if_neg h2]
          by_cases h3 : s.consec_alternative ≥ SUCCESS_THRESHOLD
          · rw [if_pos h3]
            exact (h CaptureMethod.Alternative
              (by simp [bestAtThreshold?, h1, h2, h3])).symm
          · rw [if_neg h3]

lemma runMethods_fst (attempt : CaptureMethod → Except String Image)
    (ms : List CaptureMethod) : ∀ st,
    (runMethods attempt ms st).fst =
      (match firstAccepted attempt ms with
        | some image => Except.ok image
        | none => Except.error "All DirectX methods failed or returned blank") := by
  induction ms with
  | nil => intro st; rfl
  | cons m rest ih =>
      intro st
      unfold runMethods firstAccepted
      cases hm : attempt m with
      | ok image =>
          by_cases hv : has_valid_content image <;> simp [hv, ih]
      | error e => simp [ih]

lemma firstAccepted_valid (attempt : CaptureMethod → Except String Image)
    (ms : List CaptureMethod) (image : Image) :
    firstAccepted attempt ms = some image → has_valid_content image = true := by
  induction ms with
  | nil => intro h; cases h
  | cons m rest ih =>
      intro h
      unfold firstAccepted at h
      cases hm : attempt m with
      | ok img2 =>
          simp only [hm] at h
          by_cases hv : has_valid_content img2
          · rw [if_pos hv] at h
            have himg := Option.some.inj h
            subst himg
            exact hv
          · rw [if_neg hv] at h
            exact ih h
      | error e =>
          simp only [hm] at h
          exact ih h

/-- C1: for any per-display selector state satisfying the preferred/threshold
consistency invariant (which holds initially and after every
`record_result`), one adaptive capture tries the backends in the order
determined by the display's current preferred method and returns the first
validator-accepted frame, or the fixed error when all are exhausted; the
outer `screen_shot` then returns an accepted adaptive frame as-is, and when
the adaptive chain is exhausted it returns the GDI result unchanged —
whatever it is — applying no validation and no further fallback to it. -/
theorem screen_shot_fallback_chain (attempt : CaptureMethod → Except String Image)
    (gdi : Except String Image) (st : Option CaptureStats)
    (hst : ConsistentO st) :
    ((screen_shot_directx attempt st).fst =
      (match firstAccepted attempt (methodOrder (preferredO st)) with
        | some image => Except.ok image
        | none => Except.error "All DirectX methods failed or returned blank")) ∧
    (∀ image, firstAccepted attempt (methodOrder (preferredO st)) = some image →
      (screen_shot attempt gdi st).fst = Except.ok image) ∧
    (firstAccepted attempt (methodOrder (preferredO st)) = none →
      (screen_shot attempt gdi st).fst = gdi) := by
  have h1 : (screen_shot_directx attempt st).fst =
      (match firstAccepted attempt (methodOrder (preferredO st)) with
        | some image => Except.ok image
        | none => Except.error "All DirectX methods failed or returned blank") := by
    unfold screen_shot_directx
    rw [choose_start_eq st hst]
    exact runMethods_fst attempt _ st
  refine ⟨h1, ?_, ?_⟩
  · intro image himg
    have hr : (screen_shot_directx attempt st).fst = Except.ok image := by
      rw [h1, himg]
    rcases hres : screen_shot_directx attempt st with ⟨r, st1⟩
    rw [hres] at hr
    simp only at hr
    subst hr
    have hv := firstAccepted_valid attempt _ image himg
    unfold screen_shot
    rw [hres]
    simp [hv]
  · intro hnone
    have hr : (screen_shot_directx attempt st).fst =
        Except.error "All DirectX methods failed or returned blank" := by
      rw [h1, hnone]
    rcases hres : screen_shot_directx attempt st with ⟨r, st1⟩
    rw [hres] at hr
    simp only at hr
    subst hr
    unfold screen_shot
    rw [hres]

/-- A concrete 2×2 frame with varied non-zero content, accepted by the
validator. -/
def testFrame : Image :=
  ⟨2, 2, [9, 9, 9, 9, 1, 2, 3, 4, 5, 6, 7, 8, 2, 4, 6, 8]⟩

/-- A concrete backend oracle: `Optimized` yields `testFrame`, the others
fail. -/
def attemptOptOk : CaptureMethod → Except String Image
  | CaptureMethod.Optimized => Except.ok testFrame
  | CaptureMethod.Standard => Except.error "unavailable"
  | CaptureMethod.Alternative => Except.error "unavailable"

set_option maxRecDepth 8192 in
/-- C1 witness: from the initial (absent) selector state, the chain starts at
`Optimized` and `screen_shot` returns its accepted frame. -/
theorem screen_shot_fallback_chain_witness :
    (screen_shot attemptOptOk (Except.error "gdi") none).fst =
      Except.ok testFrame :=
  (screen_shot_fallback_chain attemptOptOk (Except.error "gdi") none
    trivial).2.1 testFrame (by decide)

/-- Splice `row` into `buf` at byte offset `start`: the effect of one
`copy_nonoverlapping` of `row.length` bytes into
`buf[start..start+row.length]`. -/
def writeRow (buf : List Nat) (start : Nat) (row : List Nat) : List Nat :=
  buf.take start ++ row ++ buf.drop (start + row.length)

/-- The `width * 4` bytes the capture source provides for row `y`
(`srcByte y i` abstracts the byte at offset `i` of the mapped GPU/GDI row,
read through the row pitch). -/
def rowBytes (srcByte : Nat → Nat → Nat) (w y : Nat) : List Nat :=
  (List.range (w * 4)).map (srcByte y)

/-- The row-copy loop `for y in 0..h { copy row y into buf[y*w*4..] }` shared
by the DirectX backends. -/
def copyRows (srcByte : Nat → Nat → Nat) (w : Nat) : Nat → List Nat → List Nat
  | 0, buf => buf
  | Nat.succ y, buf =>
      writeRow (copyRows srcByte w y buf) (y * w * 4) (rowBytes srcByte w y)

/-- `screen_shot_gdi` buffer construction (`screen_shot.rs` lines 310-438):
allocate `(width * height * 4) as usize` zero bytes, let `GetDIBits` fill
them in place (abstracted by `fill`; the fill does not change the length),
and return the monitor's dimensions. -/
def screen_shot_gdi (m : MonitorInfo) (fill : Nat → Nat) : Image :=
  { width := m.width, height := m.height,
    data := (List.range (m.width * m.height * 4).toNat).map fill }

/-- `screen_shot_directx_optimized` buffer construction (lines 491-646): the
reused manager buffer `buf0` is grown with zeros when shorter than
`width*height*4`, rows are copied from the mapped staging texture, and the
first `width*height*4` bytes are returned with the monitor's dimensions. -/
def screen_shot_directx_optimized (m : MonitorInfo) (buf0 : List Nat)
    (srcByte : Nat → Nat → Nat) : Image :=
  let w := m.width.toNat
  let h := m.height.toNat
  let buf1 := if buf0.length < w * h * 4 then
    buf0 ++ List.replicate (w * h * 4 - buf0.length) 0 else buf0
  { width := (w : Int), height := (h : Int),
    data := (copyRows srcByte w h buf1).take (w * h * 4) }

/-- `screen_shot_directx_standard` buffer construction (lines 648-815):
allocate `descWidth * descHeight * 4` zeros, copy the rows from the mapped
CPU texture, and return the texture's dimensions. -/
def screen_shot_directx_standard (descWidth descHeight : Nat)
    (srcByte : Nat → Nat → Nat) : Image :=
  { width := (descWidth : Int), height := (descHeight : Int),
    data := copyRows srcByte descWidth descHeight
      (List.replicate (descWidth * descHeight * 4) 0) }

/-- `screen_shot_directx_alternative` buffer construction (lines 817-993):
identical buffer handling to the standard method (allocate
`descWidth * descHeight * 4` zeros, copy rows, return the texture's
dimensions). -/
def screen_shot_directx_alternative (descWidth descHeight : Nat)
    (srcByte : Nat → Nat → Nat) : Image :=
  { width := (descWidth : Int), height := (descHeight : Int),
    data := copyRows srcByte descWidth descHeight
      (List.replicate (descWidth * descHeight * 4) 0) }

/-- The BGRA size invariant claimed for every backend's output. -/
def bytesSpec (img : Image) : Prop :=
  img.data.length = img.width.toNat * img.height.toNat * 4

lemma writeRow_length (buf : List Nat) (start : Nat) (row : List Nat)
    (h : start + row.length ≤ buf.length) :
    (writeRow buf start row).length = buf.length := by
  simp [writeRow]
  omega

lemma rowBytes_length (srcByte : Nat → Nat → Nat) (w y : Nat) :
    (rowBytes srcByte w y).length = w * 4 := by
  simp [rowBytes]

lemma copyRows_length (srcByte : Nat → Nat → Nat) (w : Nat) :
    ∀ (y : Nat) (buf : List Nat), y * w * 4 ≤ buf.length →
      (copyRows srcByte w y buf).length = buf.length := by
  intro y
  induction y with
  | zero => intro buf _; rfl
  | succ y ih =>
      intro buf hle
      have hexp : (y + 1) * w * 4 = y * w * 4 + w * 4 := by ring
      have hy : y * w * 4 ≤ buf.length := by omega
      have hcl : (copyRows srcByte w y buf).length = buf.length := ih buf hy
      rw [copyRows, writeRow_length _ _ _
        (by rw [hcl, rowBytes_length]; omega), hcl]

/-- C5: every buffer produced by the four capture backends (GDI, optimized,
standard, alternative) has data length equal to the reported
`width * height * 4`. -/
theorem backend_buffer_lengths (m : MonitorInfo) (hw : 0 ≤ m.width)
    (hh : 0 ≤ m.height) (fill : Nat → Nat) (buf0 : List Nat)
    (srcO srcS srcA : Nat → Nat → Nat) (dW dH : Nat) :
    bytesSpec (screen_shot_gdi m fill) ∧
    bytesSpec (screen_shot_directx_optimized m buf0 srcO) ∧
    bytesSpec (screen_shot_directx_standard dW dH srcS) ∧
    bytesSpec (screen_shot_directx_alternative dW dH srcA) := by
  have hstd : ∀ (src : Nat → Nat → Nat),
      (copyRows src dW dH (List.replicate (dW * dH * 4) 0)).length =
        dW * dH * 4 := by
    intro src
    have hc : dH * dW = dW * dH := Nat.mul_comm dH dW
    rw [copyRows_length src dW dH _ (by simp; omega)]
    simp
  refine ⟨?_, ?_, ?_, ?_⟩
  · have h1 : m.width * m.height * 4 =
        ((m.width.toNat * m.height.toNat * 4 : Nat) : Int) := by
      push_cast [Int.toNat_of_nonneg hw, Int.toNat_of_nonneg hh]
      ring
    simp only [bytesSpec, screen_shot_gdi]
    rw [List.length_map, List.length_range, h1, Int.toNat_natCast]
  · simp only [bytesSpec, screen_shot_directx_optimized, List.length_take,
      Int.toNat_natCast]
    have hbuf1 : m.width.toNat * m.height.toNat * 4 ≤
        (if buf0.length < m.width.toNat * m.height.toNat * 4 then
          buf0 ++ List.replicate
            (m.width.toNat * m.height.toNat * 4 - buf0.length) 0
        else buf0).length := by
      split
      · simp
        omega
      · omega
    have hc : m.height.toNat * m.width.toNat =
        m.width.toNat * m.height.toNat := Nat.mul_comm _ _
    rw [copyRows_length srcO _ _ _ (by omega)]
    omega
  · simp only [bytesSpec, screen_shot_directx_standard, Int.toNat_natCast]
    exact hstd srcS
  · simp only [bytesSpec, screen_shot_directx_alternative, Int.toNat_natCast]
    exact hstd srcA

/-- C5 witness: the invariant instantiated at a 2×2 monitor / 2×2 texture
with concrete fills. -/
theorem backend_buffer_lengths_witness :
    bytesSpec (screen_shot_gdi ⟨0, 0, 0, 2, 2, 1⟩ (fun _ => 7)) ∧
    bytesSpec (screen_shot_directx_optimized ⟨0, 0, 0, 2, 2, 1⟩ []
      (fun _ _ => 7)) ∧
    bytesSpec (screen_shot_directx_standard 2 2 (fun _ _ => 7)) ∧
    bytesSpec (screen_shot_directx_alternative 2 2 (fun _ _ => 7)) :=
  backend_buffer_lengths ⟨0, 0, 0, 2, 2, 1⟩ (by decide) (by decide)
    (fun _ => 7) [] (fun _ _ => 7) (fun _ _ => 7) (fun _ _ => 7) 2 2

/-- A selector state whose `Optimized` counter is saturated at `u32::MAX`. -/
def saturatedStats : CaptureStats :=
  { consec_optimized := U32_MAX, consec_standard := 0, consec_alternative := 0,
    preferred := CaptureMethod.Optimized }

/-- C2 counterexample: at the saturated counter value `u32::MAX`, a recorded
success does NOT increment the method's consecutive-success counter
(`saturating_add` leaves it at `u32::MAX`), refuting the claim that a success
always increments the counter. -/
theorem record_result_saturation_cx :
    (record_result saturatedStats CaptureMethod.Optimized true).consec_optimized ≠
      saturatedStats.consec_optimized + 1 := by
  decide

/-- C2 (amended): recording a success with method M sets M's counter to
`min (old + 1) u32::MAX` — an increment whenever the counter is below
`u32::MAX`, where it saturates — and leaves the other two methods' counters
unchanged; recording a failure on M sets M's counter to 0 and leaves the
other two counters unchanged. -/
theorem record_result_counter_effect (s : CaptureStats) (m : CaptureMethod) :
    (counterOf (record_result s m true) m = min (counterOf s m + 1) U32_MAX ∧
      ∀ m2, m2 ≠ m → counterOf (record_result s m true) m2 = counterOf s m2) ∧
    (counterOf (record_result s m false) m = 0 ∧
      ∀ m2, m2 ≠ m → counterOf (record_result s m false) m2 = counterOf s m2) := by
  refine ⟨⟨?_, ?_⟩, ?_, ?_⟩
  · cases m <;> simp [record_result, counterOf, satSucc]
  · intro m2 hne
    cases m <;> cases m2 <;> simp_all [record_result, counterOf]
  · cases m <;> simp [record_result, counterOf]
  · intro m2 hne
    cases m <;> cases m2 <;> simp_all [record_result, counterOf]

/-- C2 witness: the amended theorem applied at a concrete state — a success on
`Optimized` leaves the `Standard` counter at its old value 2. -/
theorem record_result_counter_effect_witness :
    counterOf
      (record_result
        { consec_optimized := 1, consec_standard := 2, consec_alternative := 3,
          preferred := CaptureMethod.Standard }
        CaptureMethod.Optimized true)
      CaptureMethod.Standard = 2 :=
  (record_result_counter_effect
    { consec_optimized := 1, consec_standard := 2, consec_alternative := 3,
      preferred := CaptureMethod.Standard }
    CaptureMethod.Optimized).1.2 CaptureMethod.Standard (by decide)

/-- C3: after any single `record_result` event, (1) if `preferred` changed, the
new `preferred`'s consecutive-success counter has reached `SUCCESS_THRESHOLD`;
(2) whenever some method's counter is at threshold, `preferred` is the
highest-performance such method (order `Optimized > Standard > Alternative`);
(3) when no counter is at threshold, `preferred` is unchanged by the event. -/
theorem record_result_promotion (s : CaptureStats) (m : CaptureMethod) (b : Bool) :
    ((record_result s m b).preferred ≠ s.preferred →
      counterOf (record_result s m b) (record_result s m b).preferred ≥
        SUCCESS_THRESHOLD) ∧
    (∀ m2, bestAtThreshold? (record_result s m b) = some m2 →
      (record_result s m b).preferred = m2) ∧
    (bestAtThreshold? (record_result s m b) = none →
      (record_result s m b).preferred = s.preferred) := by
  refine ⟨?_, record_result_consistent s m b, ?_⟩
  · intro hchanged
    cases m <;> cases b <;>
      simp only [record_result, counterOf] at hchanged ⊢ <;>
      split_ifs at hchanged ⊢ <;>
      simp_all [counterOf, SUCCESS_THRESHOLD]
  · intro hnone
    cases m <;> cases b <;>
      simp only [record_result, bestAtThreshold?] at hnone ⊢ <;>
      split_ifs at hnone ⊢ <;> simp_all

/-- C3 witness: from counters `(2,0,0)` and `preferred = Alternative`, a
success on `Optimized` brings its counter to the threshold 3 and `preferred`
is promoted to `Optimized`. -/
theorem record_result_promotion_witness :
    (record_result
      { consec_optimized := 2, consec_standard := 0, consec_alternative := 0,
        preferred := CaptureMethod.Alternative }
      CaptureMethod.Optimized true).preferred = CaptureMethod.Optimized :=
  (record_result_promotion
    { consec_optimized := 2, consec_standard := 0, consec_alternative := 0,
      preferred := CaptureMethod.Alternative }
    CaptureMethod.Optimized true).2.1 CaptureMethod.Optimized (by decide)

/-- One OS-reported monitor as `list_monitors` consumes it
(`monitor/mod.rs` lines 8-48): a position (`i32`), a size (`u32`) and a
scale factor. -/
structure RawMonitor where
  posX : Int
  posY : Int
  sizeW : Nat
  sizeH : Nat
  scale : ℚ
deriving Repr, DecidableEq

/-- The per-monitor mapping in `list_monitors`: enumeration index becomes the
id, size is cast `as i32`. -/
def toMonitorInfo (index : Nat) (m : RawMonitor) : MonitorInfo :=
  { id := index, x := m.posX, y := m.posY, width := (m.sizeW : Int),
    height := (m.sizeH : Int), scale_factor := m.scale }

/-- Insertion step of the `sort_by` comparator in `list_monitors`: primary
key `y`, secondary key `x`. -/
def insertMonitor (m : MonitorInfo) : List MonitorInfo → List MonitorInfo
  | [] => [m]
  | n :: ns =>
      if n.y < m.y ∨ (n.y = m.y ∧ n.x ≤ m.x) then n :: insertMonitor m ns
      else m :: n :: ns

/-- The `sort_by(y, then x)` of `list_monitors`, as an insertion sort. -/
def sortMonitors : List MonitorInfo → List MonitorInfo
  | [] => []
  | m :: ms => insertMonitor m (sortMonitors ms)

/-- `list_monitors` from `monitor/mod.rs` (lines 8-48), given the list the OS
enumeration returned successfully: map each monitor with its enumeration
index to a `MonitorInfo`, sort by (y, x), and return `Ok` — there is no
emptiness check and no error constructor for an empty list. -/
def list_monitors (available : List RawMonitor) :
    Except String (List MonitorInfo) :=
  Except.ok (sortMonitors (available.enum.map (fun im => toMonitorInfo im.1 im.2)))

/-- C7 counterexample: with zero available displays, `list_monitors` returns
successfully (with the empty list); it does not fail with any error, so no
`EnumerationError::NoDisplays` is reported. -/
theorem list_monitors_empty_cx :
    ¬ ∃ e, list_monitors [] = Except.error e := by
  rintro ⟨e, h⟩
  simp [list_monitors] at h

/-- C7 (amended): when the operating system reports zero available displays,
`list_monitors` returns `Ok` with the empty monitor list (the code defines no
`EnumerationError` and treats an empty enumeration as success). -/
theorem list_monitors_empty_ok :
    list_monitors [] = Except.ok [] := rfl

/-- The two locks of the monitoring pipeline
(`system/monitoring/mod.rs`): `CAPTURE_LOCK` and the `NEXT_FRAME`
single-slot buffer lock. -/
inductive LockId
  | captureLock
  | frameBuf
deriving Repr, DecidableEq

/-- A lock acquisition or release event. -/
inductive LockEv
  | acq (l : LockId)
  | rel (l : LockId)
deriving Repr, DecidableEq

/-- Lock events of one `cal` tick on the path where no prefetched frame is
available (`system/monitoring/mod.rs` lines 116-128): the `NEXT_FRAME` lock
is taken and released to check the slot, and only then `CAPTURE_LOCK` is
taken around the synchronous capture. -/
def tickCaptureTrace : List LockEv :=
  [LockEv.acq LockId.frameBuf, LockEv.rel LockId.frameBuf,
    LockEv.acq LockId.captureLock, LockEv.rel LockId.captureLock]

/-- Lock events of the prefetch thread (`spawn_prefetch`, lines 26-57):
`CAPTURE_LOCK` around the capture, dropped explicitly, then the `NEXT_FRAME`
lock to store the frame. -/
def prefetchTrace : List LockEv :=
  [LockEv.acq LockId.captureLock, LockEv.rel LockId.captureLock,
    LockEv.acq LockId.frameBuf, LockEv.rel LockId.frameBuf]

/-- The acquisition order the claim asserts for a thread's trace: every
acquisition of the frame-buffer lock is preceded by an acquisition and by a
release of the capture lock, and no capture-lock acquisition ever follows a
frame-buffer acquisition. -/
def capFirstOrder (t : List LockEv) : Prop :=
  ∀ i, i < t.length → t.getD i (LockEv.rel LockId.captureLock) =
      LockEv.acq LockId.frameBuf →
    ((∃ j, j < i ∧ t.getD j (LockEv.rel LockId.captureLock) =
        LockEv.acq LockId.captureLock) ∧
      (∃ j, j < i ∧ t.getD j (LockEv.rel LockId.captureLock) =
        LockEv.rel LockId.captureLock) ∧
      (∀ j, j < t.length → i < j →
        t.getD j (LockEv.rel LockId.captureLock) ≠
          LockEv.acq LockId.captureLock))

instance capFirstOrder.decidable (t : List LockEv) :
    Decidable (capFirstOrder t) := by
  unfold capFirstOrder
  infer_instance

/-- Run a trace keeping `(violation-seen, capture-held, frame-held)`: a
violation is an acquisition of one lock while the other is held. -/
def lockStep (st : Bool × Bool × Bool) (ev : LockEv) : Bool × Bool × Bool :=
  match ev with
  | LockEv.acq LockId.captureLock => (st.1 || st.2.2, true, st.2.2)
  | LockEv.acq LockId.frameBuf => (st.1 || st.2.1, st.2.1, true)
  | LockEv.rel LockId.captureLock => (st.1, false, st.2.2)
  | LockEv.rel LockId.frameBuf => (st.1, st.2.1, false)

/-- Whether a trace ever acquires one of the two locks while holding the
other. -/
def holdsOtherOnAcquire (t : List LockEv) : Bool :=
  (t.foldl lockStep (false, false, false)).1

/-- C8 counterexample: the tick loop's capture path violates the claimed
order — it acquires the frame-buffer lock (to take the prefetched frame,
index 0) with no prior capture-lock event, and acquires the capture lock
afterwards (index 2). -/
theorem tick_trace_order_cx : ¬ capFirstOrder tickCaptureTrace := by decide

/-- C8 (amended): the prefetch thread does acquire and release the capture
lock before its frame-buffer acquisition, while the tick loop instead
briefly takes and releases the frame-buffer lock first and acquires the
capture lock only after releasing it; neither thread ever acquires one of
the two locks while holding the other, so no circular wait is possible. -/
theorem lock_discipline :
    capFirstOrder prefetchTrace ∧
    holdsOtherOnAcquire tickCaptureTrace = false ∧
    holdsOtherOnAcquire prefetchTrace = false := by
  refine ⟨by decide, by decide, by decide⟩

/-- `f32::round` for the nonnegative values occurring here (round half away
from zero), over exact rationals: `⌊q + 1/2⌋`. -/
def rustRound (q : ℚ) : Int := ⌊q + 1 / 2⌋

/-- The source byte index for destination pixel `(dy, dx)` in
`downscale_image_bgra`: nearest-neighbor coordinates `floor(d * ratio)`
clamped into `[0, src-1]`, row-major, 4 bytes per pixel. -/
def srcIndex (src_w src_h dst_w dst_h dy dx : Nat) : Nat :=
  (min (⌊(dy : ℚ) * ((src_h : ℚ) / (dst_h : ℚ))⌋).toNat (src_h - 1) * src_w +
    min (⌊(dx : ℚ) * ((src_w : ℚ) / (dst_w : ℚ))⌋).toNat (src_w - 1)) * 4

/-- The four bytes `src.data[sidx..sidx+4]` copied for one destination
pixel. -/
def pixelChunk (data : List Nat) (sidx : Nat) : List Nat :=
  [data.getD sidx 0, data.getD (sidx + 1) 0, data.getD (sidx + 2) 0,
    data.getD (sidx + 3) 0]

/-- `downscale_image_bgra` from `system/monitoring/mod.rs` (lines 228-254):
clamp the source dimensions to ≥ 1, compute destination dimensions
`round(dim * scale).max(1)`, return the source unchanged when the sizes
coincide, and otherwise build the destination buffer row-major, each
destination pixel copied from the clamped nearest-neighbor source pixel.
The `f32` arithmetic is modelled over exact rationals. -/
def downscale_image_bgra (src : Image) (scale : ℚ) : Image :=
  let src_w := (max src.width 1).toNat
  let src_h := (max src.height 1).toNat
  let dst_w := (max (rustRound ((src.width : ℚ) * scale)) 1).toNat
  let dst_h := (max (rustRound ((src.height : ℚ) * scale)) 1).toNat
  if dst_w = src_w ∧ dst_h = src_h then src
  else
    { width := (dst_w : Int), height := (dst_h : Int),
      data := (((List.range dst_h).map (fun dy =>
        (List.range dst_w).map (fun dx =>
          pixelChunk src.data
            (srcIndex src_w src_h dst_w dst_h dy dx)))).flatten).flatten }

lemma flatten_uniform_length {α : Type} (W : Nat) :
    ∀ (rows : List (List α)), (∀ r ∈ rows, r.length = W) →
      rows.flatten.length = rows.length * W := by
  intro rows
  induction rows with
  | nil => intro; simp
  | cons r rows ih =>
      intro h
      rw [List.flatten_cons, List.length_append,
        h r (List.mem_cons_self r rows),
        ih (fun r' hr' => h r' (List.mem_cons_of_mem r hr')), List.length_cons]
      ring

lemma flatten_uniform_getD {α : Type} (W : Nat) (d : α) :
    ∀ (rows : List (List α)) (k i : Nat), (∀ r ∈ rows, r.length = W) →
      k < rows.length → i < W →
      rows.flatten.getD (k * W + i) d = (rows.getD k []).getD i d := by
  intro rows
  induction rows with
  | nil => intro k i _ hk _; simp at hk
  | cons r rows ih =>
      intro k i h hk hi
      have hr : r.length = W := h r (List.mem_cons_self r rows)
      cases k with
      | zero =>
          rw [List.flatten_cons, Nat.zero_mul, Nat.zero_add,
            List.getD_eq_getElem?_getD, List.getElem?_append,
            if_pos (by omega), ← List.getD_eq_getElem?_getD]
          rfl
      | succ k =>
          have hexp : (k + 1) * W = k * W + W := by ring
          rw [List.flatten_cons, List.getD_eq_getElem?_getD,
            List.getElem?_append, if_neg (by omega),
            show (k + 1) * W + i - r.length = k * W + i by omega,
            ← List.getD_eq_getElem?_getD]
          have hk' : k < rows.length := by
            rw [List.length_cons] at hk
            omega
          rw [ih k i (fun r' hr' => h r' (List.mem_cons_of_mem r hr')) hk' hi]
          rfl

lemma getD_map_range {α : Type} (n k : Nat) (f : Nat → α) (d : α)
    (hk : k < n) : ((List.range n).map f).getD k d = f k := by
  have hlen : k < ((List.range n).map f).length := by simp [hk]
  rw [List.getD_eq_getElem _ _ hlen]
  simp

lemma rowmajor_bound (wN hN y x : Nat) (hw : 1 ≤ wN) (hh : 1 ≤ hN)
    (hy : y ≤ hN - 1) (hx : x ≤ wN - 1) :
    (y * wN + x) * 4 + 3 < wN * hN * 4 := by
  have hmul : y * wN ≤ (hN - 1) * wN := Nat.mul_le_mul_right _ hy
  have hsum := pred_mul_add hN wN hh hw
  have hcomm : hN * wN = wN * hN := Nat.mul_comm _ _
  omega

lemma srcIndex_bound (src_w src_h dst_w dst_h dy dx : Nat) (hw : 1 ≤ src_w)
    (hh : 1 ≤ src_h) :
    srcIndex src_w src_h dst_w dst_h dy dx + 3 < src_w * src_h * 4 := by
  unfold srcIndex
  exact rowmajor_bound src_w src_h _ _ hw hh (Nat.min_le_right _ _)
    (Nat.min_le_right _ _)

lemma srcIndex_self (a b dy dx : Nat) (ha : 1 ≤ a) (hb : 1 ≤ b)
    (hdy : dy < b) (hdx : dx < a) :
    srcIndex a b a b dy dx = (dy * a + dx) * 4 := by
  unfold srcIndex
  have hbq : ((b : ℚ)) ≠ 0 := Nat.cast_ne_zero.mpr (by omega)
  have haq : ((a : ℚ)) ≠ 0 := Nat.cast_ne_zero.mpr (by omega)
  rw [div_self hbq, div_self haq, mul_one, mul_one, Int.floor_natCast,
    Int.floor_natCast, Int.toNat_natCast, Int.toNat_natCast,
    min_eq_left (by omega), min_eq_left (by omega)]

lemma downscaleData_length (data : List Nat) (sw sh dw dh : Nat) :
    (((List.range dh).map (fun dy => (List.range dw).map (fun dx =>
      pixelChunk data (srcIndex sw sh dw dh dy dx)))).flatten).flatten.length =
      dh * dw * 4 := by
  have hrowlen : ∀ r ∈ (List.range dh).map (fun dy => (List.range dw).map
      (fun dx => pixelChunk data (srcIndex sw sh dw dh dy dx))),
      r.length = dw := by
    intro r hr
    rcases List.mem_map.mp hr with ⟨dy, -, rfl⟩
    simp
  have hchunklen : ∀ c ∈ (((List.range dh).map (fun dy =>
      (List.range dw).map (fun dx =>
        pixelChunk data (srcIndex sw sh dw dh dy dx)))).flatten),
      c.length = 4 := by
    intro c hc
    rcases List.mem_flatten.mp hc with ⟨r, hr, hcr⟩
    rcases List.mem_map.mp hr with ⟨dy, -, rfl⟩
    rcases List.mem_map.mp hcr with ⟨dx, -, rfl⟩
    simp [pixelChunk]
  rw [flatten_uniform_length 4 _ hchunklen, flatten_uniform_length dw _ hrowlen]
  simp [Nat.mul_assoc]

lemma downscaleData_getD (data : List Nat) (sw sh dw dh dy dx : Nat)
    (hdy : dy < dh) (hdx : dx < dw) (i : Nat) (hi : i < 4) :
    (((List.range dh).map (fun dy => (List.range dw).map (fun dx =>
      pixelChunk data (srcIndex sw sh dw dh dy dx)))).flatten).flatten.getD
        ((dy * dw + dx) * 4 + i) 0 =
      data.getD (srcIndex sw sh dw dh dy dx + i) 0 := by
  have hrowlen : ∀ r ∈ (List.range dh).map (fun dy => (List.range dw).map
      (fun dx => pixelChunk data (srcIndex sw sh dw dh dy dx))),
      r.length = dw := by
    intro r hr
    rcases List.mem_map.mp hr with ⟨dy, -, rfl⟩
    simp
  have hchunklen : ∀ c ∈ (((List.range dh).map (fun dy =>
      (List.range dw).map (fun dx =>
        pixelChunk data (srcIndex sw sh dw dh dy dx)))).flatten),
      c.length = 4 := by
    intro c hc
    rcases List.mem_flatten.mp hc with ⟨r, hr, hcr⟩
    rcases List.mem_map.mp hr with ⟨dy, -, rfl⟩
    rcases List.mem_map.mp hcr with ⟨dx, -, rfl⟩
    simp [pixelChunk]
  have hk : dy * dw + dx < dh * dw := by
    have h1 : (dy + 1) * dw = dy * dw + dw := by ring
    have h2 : (dy + 1) * dw ≤ dh * dw := Nat.mul_le_mul_right dw hdy
    omega
  have hchunkslen : (((List.range dh).map (fun dy => (List.range dw).map
      (fun dx => pixelChunk data
        (srcIndex sw sh dw dh dy dx)))).flatten).length = dh * dw := by
    rw [flatten_uniform_length dw _ hrowlen]
    simp
  rw [flatten_uniform_getD 4 0 _ _ i hchunklen (by omega) hi,
    flatten_uniform_getD dw ([] : List Nat) _ dy dx hrowlen (by simp [hdy]) hdx,
    getD_map_range dh dy _ _ hdy, getD_map_range dw dx _ _ hdx]
  interval_cases i <;> simp [pixelChunk]

/-- The (amended) C10 post-condition: output dimensions
`max(1, round(dim * scale))`, output length exactly `width*height*4`, and
every destination pixel copied from the clamped nearest-neighbor source
pixel, whose byte index stays inside the source buffer. -/
def DownscaleSpec (src out : Image) (scale : ℚ) : Prop :=
  out.width = max (rustRound ((src.width : ℚ) * scale)) 1 ∧
  out.height = max (rustRound ((src.height : ℚ) * scale)) 1 ∧
  out.data.length = out.width.toNat * out.height.toNat * 4 ∧
  ∀ dy dx, dy < out.height.toNat → dx < out.width.toNat →
    (srcIndex (max src.width 1).toNat (max src.height 1).toNat
        out.width.toNat out.height.toNat dy dx + 3 < src.data.length ∧
      readPixel out.data ((dy * out.width.toNat + dx) * 4) =
        readPixel src.data
          (srcIndex (max src.width 1).toNat (max src.height 1).toNat
            out.width.toNat out.height.toNat dy dx))

/-- C10 (amended): for a source with positive dimensions, data length
exactly `width*height*4` and a positive scale, `downscale_image_bgra`
satisfies `DownscaleSpec`: output dimensions `max(1, round(dim*scale))`,
output length exactly the output `width*height*4`, and every destination
pixel equal to the clamped nearest-neighbor source pixel, read in bounds. -/
theorem downscale_image_bgra_spec (src : Image) (scale : ℚ)
    (hw : 1 ≤ src.width) (hh : 1 ≤ src.height)
    (hlen : src.data.length = src.width.toNat * src.height.toNat * 4)
    (_hs : 0 < scale) :
    DownscaleSpec src (downscale_image_bgra src scale) scale := by
  have hw1 : 1 ≤ src.width.toNat := Int.toNat_le_toNat hw
  have hh1 : 1 ≤ src.height.toNat := Int.toNat_le_toNat hh
  have hmw : max src.width 1 = src.width := max_eq_left hw
  have hmh : max src.height 1 = src.height := max_eq_left hh
  have hwpos : (0 : Int) ≤ max (rustRound ((src.width : ℚ) * scale)) 1 :=
    le_trans (by norm_num) (le_max_right _ _)
  have hhpos : (0 : Int) ≤ max (rustRound ((src.height : ℚ) * scale)) 1 :=
    le_trans (by norm_num) (le_max_right _ _)
  simp only [downscale_image_bgra]
  by_cases hc :
      ((max (rustRound ((src.width : ℚ) * scale)) 1).toNat =
        (max src.width 1).toNat ∧
      (max (rustRound ((src.height : ℚ) * scale)) 1).toNat =
        (max src.height 1).toNat)
  · rw [if_pos hc]
    obtain ⟨hcw, hch⟩ := hc
    rw [hmw] at hcw
    rw [hmh] at hch
    have hweq : src.width = max (rustRound ((src.width : ℚ) * scale)) 1 := by
      have h2 : (0 : Int) ≤ src.width := by omega
      have := congrArg (fun n : Nat => (n : Int)) hcw
      simp only at this
      rw [Int.toNat_of_nonneg hwpos, Int.toNat_of_nonneg h2] at this
      exact this.symm
    have hheq : src.height = max (rustRound ((src.height : ℚ) * scale)) 1 := by
      have h2 : (0 : Int) ≤ src.height := by omega
      have := congrArg (fun n : Nat => (n : Int)) hch
      simp only at this
      rw [Int.toNat_of_nonneg hhpos, Int.toNat_of_nonneg h2] at this
      exact this.symm
    refine ⟨hweq, hheq, hlen, ?_⟩
    intro dy dx hdy hdx
    constructor
    · rw [hlen, hmw, hmh]
      exact srcIndex_bound _ _ _ _ dy dx hw1 hh1
    · rw [hmw, hmh, srcIndex_self src.width.toNat src.height.toNat dy dx
        hw1 hh1 hdy hdx]
  · rw [if_neg hc]
    refine ⟨Int.toNat_of_nonneg hwpos, Int.toNat_of_nonneg hhpos, ?_, ?_⟩
    · simp only [Int.toNat_natCast]
      rw [downscaleData_length]
      ring
    · intro dy dx hdy hdx
      simp only [Int.toNat_natCast] at hdy hdx ⊢
      constructor
      · rw [hlen, hmw, hmh]
        exact srcIndex_bound _ _ _ _ dy dx hw1 hh1
      · have e0 := downscaleData_getD src.data (max src.width 1).toNat
          (max src.height 1).toNat
          (max (rustRound ((src.width : ℚ) * scale)) 1).toNat
          (max (rustRound ((src.height : ℚ) * scale)) 1).toNat
          dy dx hdy hdx 0 (by omega)
        have e1 := downscaleData_getD src.data (max src.width 1).toNat
          (max src.height 1).toNat
          (max (rustRound ((src.width : ℚ) * scale)) 1).toNat
          (max (rustRound ((src.height : ℚ) * scale)) 1).toNat
          dy dx hdy hdx 1 (by omega)
        have e2 := downscaleData_getD src.data (max src.width 1).toNat
          (max src.height 1).toNat
          (max (rustRound ((src.width : ℚ) * scale)) 1).toNat
          (max (rustRound ((src.height : ℚ) * scale)) 1).toNat
          dy dx hdy hdx 2 (by omega)
        have e3 := downscaleData_getD src.data (max src.width 1).toNat
          (max src.height 1).toNat
          (max (rustRound ((src.width : ℚ) * scale)) 1).toNat
          (max (rustRound ((src.height : ℚ) * scale)) 1).toNat
          dy dx hdy hdx 3 (by omega)
        simp only [Nat.add_zero] at e0
        simp only [readPixel]
        rw [e0, e1, e2, e3]

/-- C10 counterexample: a 1×1 source with 8 data bytes (at least
`1*1*4 = 4`, as the claim requires) and scale 1 takes the pass-through
branch — `downscale_image_bgra` returns the source unchanged — so the
output's data length is 8, not its `width*height*4 = 4`. -/
theorem downscale_oversized_cx :
    1 * 1 * 4 ≤ (8 : Nat) ∧ (0 : ℚ) < 1 ∧
    (downscale_image_bgra ⟨1, 1, [3, 3, 3, 3, 7, 7, 7, 7]⟩ 1).data.length ≠
      (downscale_image_bgra ⟨1, 1, [3, 3, 3, 3, 7, 7, 7, 7]⟩ 1).width.toNat *
        (downscale_image_bgra ⟨1, 1, [3, 3, 3, 3, 7, 7, 7, 7]⟩ 1).height.toNat *
          4 := by
  have hr : rustRound (((1 : Int) : ℚ) * 1) = 1 := by
    unfold rustRound
    rw [Int.floor_eq_iff]
    constructor <;> norm_num
  have hd : downscale_image_bgra ⟨1, 1, [3, 3, 3, 3, 7, 7, 7, 7]⟩ 1 =
      ⟨1, 1, [3, 3, 3, 3, 7, 7, 7, 7]⟩ := by
    simp only [downscale_image_bgra]
    rw [hr]
    simp
  refine ⟨by norm_num, by norm_num, ?_⟩
  rw [hd]
  decide

/-- C10 witness: the amended post-condition instantiated at a 2×2 source
with exactly 16 bytes and scale 1/2. -/
theorem downscale_image_bgra_spec_witness :
    DownscaleSpec ⟨2, 2, [1, 2, 3, 4, 5, 6, 7, 8, 9, 10, 11, 12, 13, 14, 15, 16]⟩
      (downscale_image_bgra
        ⟨2, 2, [1, 2, 3, 4, 5, 6, 7, 8, 9, 10, 11, 12, 13, 14, 15, 16]⟩ (1 / 2))
      (1 / 2) :=
  downscale_image_bgra_spec
    ⟨2, 2, [1, 2, 3, 4, 5, 6, 7, 8, 9, 10, 11, 12, 13, 14, 15, 16]⟩ (1 / 2)
    (by decide) (by decide) (by decide) one_half_pos

end ScreenGhost
